import Mathlib

/- Shallow embedding of the `memories` file-manager (`main.go`): the
   thumbnail derivation and caching logic, the index-listing filter and the
   upload ingestion flow.  External collaborators (the B2 object store, the
   `imaging` codec, the ffmpeg transcoder, the platform MIME table) are
   modelled as explicit oracles carried in an `Env` record.  Strings are
   modelled at the character-list level; Go's byte-indexed scans for `'.'`
   and `'/'` coincide with character scans because both characters are
   single-byte and UTF-8 continuation bytes never equal them. -/

namespace Memories

/-- Object contents: a byte blob, modelled as a list of byte values. -/
abbrev Bytes := List Nat

/-- Decoded raster images are abstract handles; the codec oracles in `Env`
give them meaning.  Modelled as `Nat` so that witnesses can evaluate. -/
abbrev Image := Nat

/-- The bucket: a partial map from object names to contents.  `none` means
the object (and hence its attributes) is absent. -/
abbrev Store := String → Option Bytes

/-! ### Go `path` package: `Ext`, `Clean`, `Join`
`getThumbPath` in `main.go` uses `path.Ext` and `path.Join` (which runs
`path.Clean` on the joined string), so we embed those. -/

/-- Split a character list on `'/'` (keeping empty segments), the segment
view used to model Go's `path.Clean`. -/
def splitSlash : List Char → List (List Char)
  | [] => [[]]
  | c :: rest =>
    if c = '/' then [] :: splitSlash rest
    else
      match splitSlash rest with
      | [] => [[c]]
      | s :: ss => (c :: s) :: ss

/-- Re-join segments with `'/'`; inverse of `splitSlash`. -/
def joinSegs : List (List Char) → List Char
  | [] => []
  | s :: ss => if ss = [] then s else s ++ '/' :: joinSegs ss

/-- Go `path.Clean` element processing: skip empty and `"."` segments, have
`".."` pop the most recent kept segment when one is available, drop it at
the root, and keep it when un-rooted with nothing to pop.  `out` is a stack
whose head is the most recently kept segment. -/
def cleanSegsAux (rooted : Bool) : List (List Char) → List (List Char) → List (List Char)
  | [], out => out
  | s :: rest, out =>
    if s = [] || s = ['.'] then cleanSegsAux rooted rest out
    else if s = ['.', '.'] then
      match out with
      | [] => cleanSegsAux rooted rest (if rooted then [] else [['.', '.']])
      | o :: os =>
        if o = ['.', '.'] then
          cleanSegsAux rooted rest (if rooted then o :: os else ['.', '.'] :: o :: os)
        else cleanSegsAux rooted rest os
    else cleanSegsAux rooted rest (s :: out)

/-- Go `path.Clean` on a character list (extensionally: lexical path
simplification; `""` cleans to `"."`). -/
def goCleanChars (l : List Char) : List Char :=
  let rooted := match l with | '/' :: _ => true | _ => false
  let out := (cleanSegsAux rooted (splitSlash l) []).reverse
  let res := (if rooted then ['/'] else []) ++ joinSegs out
  if res = [] then ['.'] else res

/-- Go `path.Clean` on strings. -/
def goClean (s : String) : String := ⟨goCleanChars s.data⟩

/-- Go `path.Join(a, b)`: drop empty elements, join the rest with `"/"`,
then `Clean`; all-empty input yields `""`. -/
def pathJoin2 (a b : String) : String :=
  if a.data = [] then (if b.data = [] then "" else goClean b)
  else if b.data = [] then goClean a
  else goClean ⟨a.data ++ '/' :: b.data⟩

/-- Scan for Go `path.Ext`: walk the reversed character list until a `'/'`
(no extension) or a `'.'` (extension found); `acc` holds the characters
already passed, in forward order. -/
def extRevAux : List Char → List Char → List Char
  | [], _ => []
  | c :: rest, acc =>
    if c = '/' then [] else if c = '.' then c :: acc else extRevAux rest (c :: acc)

/-- Go `path.Ext`: the suffix starting at the final dot of the final
slash-separated element, or `""` when that element has no dot. -/
def pathExt (s : String) : String := ⟨extRevAux s.data.reverse []⟩

/-- The name with its `pathExt` removed (`originalPath[:len-len(ext)]` in
`getThumbPath`); also the spec's `stripExt`. -/
def stripExt (s : String) : String :=
  ⟨s.data.take (s.data.length - (pathExt s).data.length)⟩

/-- `getThumbPath` from `main.go`: strip the extension, append `".jpg"`,
and `path.Join` under `"thumb"`. -/
def getThumbPath (originalPath : String) : String :=
  pathJoin2 "thumb" (stripExt originalPath ++ ".jpg")

/-! ### String helpers (`strings` package uses in `main.go`) -/

/-- Go `strings.HasPrefix` on our string model. -/
def strStartsWith (s p : String) : Bool := p.data.isPrefixOf s.data

/-- Go `strings.HasSuffix` on our string model. -/
def strEndsWith (s t : String) : Bool := t.data.isSuffixOf s.data

/-- Go `strings.TrimPrefix`: remove `p` from the front of `s` when present,
otherwise return `s` unchanged. -/
def trimPrefixStr (s p : String) : String :=
  if p.data.isPrefixOf s.data then ⟨s.data.drop p.data.length⟩ else s

/-- Go `strings.ToLower`, restricted to the per-character lowering that the
ASCII suffix tables exercise. -/
def lowerStr (s : String) : String := ⟨s.data.map Char.toLower⟩

/-- `hasSuffix` from `main.go`: case-insensitive check of `name` against a
list of suffixes. -/
def hasSuffix (name : String) (suffixes : List String) : Bool :=
  suffixes.any fun s => strEndsWith (lowerStr name) (lowerStr s)

/-- Video classification (`hasSuffix(name, ".mp4", ".mov", ".mkv", ".webm")`). -/
def isVideoName (name : String) : Bool :=
  hasSuffix name [".mp4", ".mov", ".mkv", ".webm"]

/-- Image classification (`hasSuffix(name, ".jpg", ".jpeg", ".png", ".gif", ".webp")`). -/
def isImageName (name : String) : Bool :=
  hasSuffix name [".jpg", ".jpeg", ".png", ".gif", ".webp"]

/-- The `isMedia` test in `indexHandler` (images and videos together). -/
def isMediaName (name : String) : Bool :=
  hasSuffix name [".jpg", ".jpeg", ".png", ".gif", ".webp", ".mp4", ".mov", ".mkv", ".webm"]

/-! ### External collaborators -/

/-- Oracles for the external collaborators of `main.go`.  `encodeJPEG`
returns the buffer contents together with an error flag, because the code
sometimes ignores `imaging.Encode`'s error and uses the buffer anyway. -/
structure Env where
  ffmpeg : Bytes → Option Bytes
  decode : Bytes → Option Image
  resize : Image → Image
  encodeJPEG : Image → Bytes × Bool
  putOk : String → Bytes → Bool
  mimeByExt : String → String

/-- `generateVideoThumbnail` from `main.go`: run ffmpeg to extract a frame
(1s offset); on ffmpeg failure report an error; if the extracted frame does
not decode, return the raw frame bytes with no error; otherwise resize to
300px width and JPEG-encode, propagating the encoder's error. -/
def generateVideoThumbnail (env : Env) (videoBytes : Bytes) : Except Unit Bytes :=
  match env.ffmpeg videoBytes with
  | none => .error ()
  | some imgData =>
    match env.decode imgData with
    | none => .ok imgData
    | some img =>
      let p := env.encodeJPEG (env.resize img)
      if p.2 then .error () else .ok p.1

/-- Number of image-decode calls `generateVideoThumbnail` performs: the
call-count seam on the image-decode collaborator. -/
def videoGenDecodeCalls (env : Env) (videoBytes : Bytes) : Nat :=
  match env.ffmpeg videoBytes with
  | none => 0
  | some _ => 1

/-- A store write through a `NewWriter`: on success the key is set, on
failure (which `main.go` at most logs) the store is unchanged. -/
def putThumb (env : Env) (store : Store) (key : String) (data : Bytes) : Store :=
  if env.putOk key data then (fun n => if n = key then some data else store n) else store

/-- HTTP responses the modelled handlers can produce. -/
inductive HResponse where
  | notFound : HResponse
  | serverError : String → HResponse
  | redirect : String → Nat → HResponse
  | bytesResponse : String → String → Bytes → HResponse
deriving DecidableEq

/-- The `Cache-Control` header value set by `thumbHandler`. -/
def cacheControlHeader : String := "public, max-age=604800"

/-- Result of one `thumbHandler` request: the response, the store
afterwards, and call counts for the decode and ffmpeg collaborators. -/
structure HandlerResult where
  response : HResponse
  store : Store
  decodeCalls : Nat
  ffmpegCalls : Nat

/-- The name `thumbHandler` passes to `getThumbPath`, when it reaches that
call: `strings.TrimPrefix(r.URL.Path, "/thumb/")`, unless empty. -/
def thumbHandlerMappedName (urlPath : String) : Option String :=
  let originalName := trimPrefixStr urlPath "/thumb/"
  if originalName = "" then none else some originalName

/-- `thumbHandler` from `main.go`.  Serve the cached object at
`getThumbPath(name)` when its attributes probe succeeds; otherwise download
the original, generate (video via `generateVideoThumbnail`, everything else
via the image codec), best-effort write the cache entry, and serve the
generated bytes as JPEG. -/
def thumbHandler (env : Env) (store : Store) (urlPath : String) : HandlerResult :=
  let originalName := trimPrefixStr urlPath "/thumb/"
  if originalName = "" then ⟨.notFound, store, 0, 0⟩
  else
    let thumbB2Path := getThumbPath originalName
    match store thumbB2Path with
    | some data =>
      ⟨.bytesResponse "image/jpeg" cacheControlHeader data, store, 0, 0⟩
    | none =>
      match store originalName with
      | none => ⟨.serverError "download failed", store, 0, 0⟩
      | some orig =>
        if isVideoName originalName then
          match generateVideoThumbnail env orig with
          | .error _ =>
            ⟨.redirect "/static/file-icon.png" 302, store, videoGenDecodeCalls env orig, 1⟩
          | .ok thumbData =>
            ⟨.bytesResponse "image/jpeg" cacheControlHeader thumbData,
              putThumb env store thumbB2Path thumbData, videoGenDecodeCalls env orig, 1⟩
        else
          match env.decode orig with
          | none => ⟨.serverError "decode failed", store, 1, 0⟩
          | some srcImage =>
            let thumbData := (env.encodeJPEG (env.resize srcImage)).1
            ⟨.bytesResponse "image/jpeg" cacheControlHeader thumbData,
              putThumb env store thumbB2Path thumbData, 1, 0⟩

/-! ### Index listing -/

/-- Object attributes as the listing uses them (size in bytes, upload
timestamp).  Display formatting (`humanReadableSize`, date layout) is
rendering only and is not modelled. -/
structure Attrs where
  size : Int
  uploadTime : Nat
deriving DecidableEq

/-- `detectContentType` from `main.go`: platform MIME table first (an
oracle), then the fixed video table, then the generic binary type. -/
def detectContentType (env : Env) (name : String) : String :=
  let ext := pathExt name
  let ct := env.mimeByExt ext
  if ct ≠ "" then ct
  else if ext = ".mp4" then "video/mp4"
  else if ext = ".mov" then "video/quicktime"
  else if ext = ".webm" then "video/webm"
  else if ext = ".mkv" then "video/x-matroska"
  else "application/octet-stream"

/-- The thumbnail URL `indexHandler` attaches to an entry: the resolver for
media names, the static file icon otherwise. -/
def thumbURLFor (name : String) : String :=
  if isMediaName name then "/thumb/" ++ name else "/static/file-icon.png"

/-- One entry of the rendered index listing. -/
structure IndexEntry where
  name : String
  size : Int
  contentType : String
  thumbURL : String

/-- The listing loop of `indexHandler`: iterate the bucket in order, skip
every name with the `thumb/` prefix, skip entries whose attribute fetch
failed (`none`), and build display entries for the rest. -/
def indexFiles (env : Env) (listing : List (String × Option Attrs)) : List IndexEntry :=
  listing.filterMap fun x =>
    if strStartsWith x.1 "thumb/" then none
    else
      match x.2 with
      | none => none
      | some a => some ⟨x.1, a.size, detectContentType env x.1, thumbURLFor x.1⟩

/-! ### Upload ingestion -/

/-- A parsed upload form: the file bytes, its client-side filename, and the
optional folder and custom-name fields. -/
structure UploadRequest where
  fileBytes : Bytes
  filename : String
  folder : String
  customName : String

/-- Responses of the modelled `uploadHandler` (the success page's message
formatting is rendering only and is not modelled). -/
inductive UploadResponse where
  | serverError : String → UploadResponse
  | success : String → UploadResponse
deriving DecidableEq

/-- Result of one `uploadHandler` POST. -/
structure UploadResult where
  response : UploadResponse
  store : Store

/-- The thumbnail bytes `uploadHandler` would write (`shouldGen` set):
video generation must succeed, image decode must succeed (its encode error
is ignored and the buffer used), anything else generates nothing. -/
def uploadGenBytes (env : Env) (objectPath : String) (fileBytes : Bytes) : Option Bytes :=
  if isVideoName objectPath then
    match generateVideoThumbnail env fileBytes with
    | .error _ => none
    | .ok b => some b
  else if isImageName objectPath then
    match env.decode fileBytes with
    | none => none
    | some img => some (env.encodeJPEG (env.resize img)).1
  else none

/-- The effective object name of an upload (`uploadHandler` step 2): the
custom name or the original filename, joined under the optional folder. -/
def effectiveObjectPath (req : UploadRequest) : String :=
  let customName := if req.customName = "" then req.filename else req.customName
  if req.folder = "" then customName else pathJoin2 req.folder customName

/-- `uploadHandler` (POST branch) from `main.go`: compute the effective
object path (`path.Join(folder, name)` when a folder is given), write the
primary object (failure is a 500), then best-effort generate and write the
thumbnail, ignoring every failure in that step. -/
def uploadHandler (env : Env) (store : Store) (req : UploadRequest) : UploadResult :=
  let objectPath := effectiveObjectPath req
  if env.putOk objectPath req.fileBytes then
    let store1 : Store := fun n => if n = objectPath then some req.fileBytes else store n
    match uploadGenBytes env objectPath req.fileBytes with
    | none => ⟨.success objectPath, store1⟩
    | some b => ⟨.success objectPath, putThumb env store1 (getThumbPath objectPath) b⟩
  else ⟨.serverError "upload failed", store⟩

/-- Oracle suite where image decode and ffmpeg both fail and store writes
succeed; used to exercise the failure branches on concrete inputs. -/
def envDecodeFail : Env :=
  ⟨fun _ => none, fun _ => none, fun i => i, fun i => ([i], false), fun _ _ => true, fun _ => ""⟩

/-- Oracle suite where ffmpeg extracts the frame `[9, 9]` but that frame
does not decode. -/
def envFrameNoDecode : Env :=
  { envDecodeFail with ffmpeg := fun _ => some [9, 9] }

/-- Oracle suite where everything succeeds: decode yields handle `5`,
resize is the identity, encoding an image `i` yields the bytes `[i]`. -/
def envG : Env :=
  ⟨fun _ => some [3], fun _ => some 5, fun i => i, fun i => ([i], false), fun _ _ => true,
    fun _ => ""⟩

/-- Like `envG` but every store write fails. -/
def envGNoPut : Env := { envG with putOk := fun _ _ => false }

/-- A bucket holding only the image object `photos/x.png`. -/
def storeOnePng : Store := fun n => if n = "photos/x.png" then some [7, 7] else none

/-- A bucket holding only the video object `clips/y.mp4`. -/
def storeOneMp4 : Store := fun n => if n = "clips/y.mp4" then some [1, 2] else none

/-- The empty bucket. -/
def storeEmpty : Store := fun _ => none

/-- The upload of `q.jpg` into folder `reports` from the spec's example. -/
def reqQJpg : UploadRequest := ⟨[1, 2, 3], "q.jpg", "reports", ""⟩

/-- Apply `f` to the last element of a list (identity on `[]`); used to
describe how appending slash-free text changes the segment view. -/
def modLast (f : List Char → List Char) : List (List Char) → List (List Char)
  | [] => []
  | [a] => [f a]
  | a :: b :: rest => a :: modLast f (b :: rest)

/-- A segment acceptable in an object name: nonempty and neither of the
special path elements `"."`, `".."` that `path.Clean` rewrites. -/
def validSeg (s : List Char) : Bool := !(s = [] || s = ['.'] || s = ['.', '.'])

/-- An object name in the sense of the data model: forward-slash separated
nonempty segments, none of them the special elements `"."` or `".."`.
(Rules out `""`, leading/trailing/double slashes and dot segments.) -/
def validObjectName (n : String) : Bool := (splitSlash n.data).all validSeg

/-! ### Lemmas: the segment view of strings -/

theorem splitSlash_ne_nil (l : List Char) : splitSlash l ≠ [] := by
  induction l with
  | nil => simp [splitSlash]
  | cons c rest ih =>
    simp only [splitSlash]
    split
    · simp
    · split <;> simp

theorem joinSegs_splitSlash (l : List Char) : joinSegs (splitSlash l) = l := by
  induction l with
  | nil => rfl
  | cons c rest ih =>
    cases h : splitSlash rest with
    | nil => exact absurd h (splitSlash_ne_nil rest)
    | cons s ss =>
      rw [h] at ih
      by_cases hc : c = '/'
      · subst hc
        have h1 : splitSlash ('/' :: rest) = [] :: s :: ss := by simp [splitSlash, h]
        have h2 : joinSegs ([] :: s :: ss) = '/' :: joinSegs (s :: ss) := by simp [joinSegs]
        rw [h1, h2, ih]
      · have h1 : splitSlash (c :: rest) = (c :: s) :: ss := by simp [splitSlash, hc, h]
        rw [h1]
        cases ss with
        | nil =>
          have h3 : joinSegs [s] = s := by simp [joinSegs]
          rw [h3] at ih
          have h2 : joinSegs [c :: s] = c :: s := by simp [joinSegs]
          rw [h2, ih]
        | cons s2 ss2 =>
          have h2 : joinSegs ((c :: s) :: s2 :: ss2) = (c :: s) ++ '/' :: joinSegs (s2 :: ss2) := by
            simp [joinSegs]
          have h3 : joinSegs (s :: s2 :: ss2) = s ++ '/' :: joinSegs (s2 :: ss2) := by
            simp [joinSegs]
          rw [h3] at ih
          rw [h2, List.cons_append, ih]

theorem noslash_splitSlash (t : List Char) (h : '/' ∉ t) : splitSlash t = [t] := by
  induction t with
  | nil => rfl
  | cons c rest ih =>
    simp only [List.mem_cons, not_or] at h
    have h1 : ¬ c = '/' := fun hh => h.1 hh.symm
    simp [splitSlash, h1, ih h.2]

theorem modLast_cons_of_ne_nil (f : List Char → List Char) (a : List Char)
    (ss : List (List Char)) (h : ss ≠ []) :
    modLast f (a :: ss) = a :: modLast f ss := by
  cases ss with
  | nil => exact absurd rfl h
  | cons b rest => simp [modLast]

theorem splitSlash_append_noslash (t : List Char) (ht : '/' ∉ t) (l : List Char) :
    splitSlash (l ++ t) = modLast (fun s => s ++ t) (splitSlash l) := by
  induction l with
  | nil => simp [splitSlash, noslash_splitSlash t ht, modLast]
  | cons c l ih =>
    by_cases hc : c = '/'
    · subst hc
      have h1 : splitSlash ('/' :: (l ++ t)) = [] :: splitSlash (l ++ t) := by simp [splitSlash]
      have h2 : splitSlash ('/' :: l) = [] :: splitSlash l := by simp [splitSlash]
      rw [List.cons_append, h1, h2,
        modLast_cons_of_ne_nil _ _ _ (splitSlash_ne_nil l), ih]
    · cases h : splitSlash l with
      | nil => exact absurd h (splitSlash_ne_nil l)
      | cons s ss =>
        rw [h] at ih
        have h1 : splitSlash (c :: l) = (c :: s) :: ss := by simp [splitSlash, hc, h]
        cases ss with
        | nil =>
          have h4 : modLast (fun s => s ++ t) [s] = [s ++ t] := by simp [modLast]
          rw [h4] at ih
          have h2 : splitSlash (c :: (l ++ t)) = (c :: (s ++ t)) :: [] := by
            simp [splitSlash, hc, ih]
          rw [List.cons_append, h2, h1]
          simp [modLast]
        | cons s2 ss2 =>
          rw [modLast_cons_of_ne_nil _ _ _ (by simp)] at ih
          have h2 : splitSlash (c :: (l ++ t)) = (c :: s) :: modLast (fun s => s ++ t) (s2 :: ss2) := by
            simp [splitSlash, hc, ih]
          rw [List.cons_append, h2, h1,
            modLast_cons_of_ne_nil (fun s => s ++ t) (c :: s) (s2 :: ss2) (by simp)]

theorem extRevAux_spec (r : List Char) : ∀ acc, extRevAux r acc = [] ∨
    ∃ e, e ≠ [] ∧ '/' ∉ e ∧ e.reverse <+: r ∧ extRevAux r acc = e ++ acc := by
  induction r with
  | nil => intro acc; left; rfl
  | cons c rest ih =>
    intro acc
    by_cases hc : c = '/'
    · left; simp [extRevAux, hc]
    · by_cases hd : c = '.'
      · right
        refine ⟨[c], ?_, ?_, ?_, ?_⟩
        · simp
        · intro hm; exact hc ((List.mem_singleton.mp hm).symm)
        · simp
        · simp [extRevAux, hc, hd]
      · rcases ih (c :: acc) with hnil | ⟨e, hne, hsl, hpre, heq⟩
        · left; simpa [extRevAux, hc, hd] using hnil
        · right
          obtain ⟨u, hu⟩ := hpre
          refine ⟨e ++ [c], ?_, ?_, ?_, ?_⟩
          · simp
          · simp only [List.mem_append, List.mem_singleton, not_or]
            exact ⟨hsl, fun hh => hc hh.symm⟩
          · exact ⟨u, by simp [hu]⟩
          · simpa [extRevAux, hc, hd, List.append_assoc] using heq

theorem strip_append_ext (s : String) :
    (stripExt s).data ++ (pathExt s).data = s.data := by
  show s.data.take (s.data.length - (pathExt s).data.length) ++ (pathExt s).data = s.data
  rcases extRevAux_spec s.data.reverse [] with hnil | ⟨e, _, _, hpre, heq⟩
  · have hx : (pathExt s).data = [] := by simp [pathExt, hnil]
    simp [hx]
  · have hext : (pathExt s).data = e := by simp [pathExt, heq]
    have hsuf : e <:+ s.data := List.reverse_prefix.mp (by simpa using hpre)
    obtain ⟨t, ht⟩ := hsuf
    have h2 : s.data.length - (pathExt s).data.length = t.length := by
      rw [hext, ← ht]; simp
    rw [h2, hext, ← ht, List.take_left]

theorem ext_no_slash (s : String) : '/' ∉ (pathExt s).data := by
  rcases extRevAux_spec s.data.reverse [] with hnil | ⟨e, _, hsl, _, heq⟩
  · simp [pathExt, hnil]
  · have hext : (pathExt s).data = e := by simp [pathExt, heq]
    rw [hext]; exact hsl

theorem validSeg_append_jpg (t : List Char) :
    validSeg (t ++ ['.', 'j', 'p', 'g']) = true := by
  have h1 : t ++ ['.', 'j', 'p', 'g'] ≠ [] := by simp
  have h2 : t ++ ['.', 'j', 'p', 'g'] ≠ ['.'] := by
    intro h; have := congrArg List.length h
    simp [List.length_append] at this
  have h3 : t ++ ['.', 'j', 'p', 'g'] ≠ ['.', '.'] := by
    intro h; have := congrArg List.length h
    simp [List.length_append] at this
  simp [validSeg, h1, h2, h3]

theorem cleanSegsAux_all_valid (rooted : Bool) (segs : List (List Char))
    (h : ∀ s ∈ segs, validSeg s = true) :
    ∀ out, cleanSegsAux rooted segs out = segs.reverse ++ out := by
  induction segs with
  | nil => intro out; simp [cleanSegsAux]
  | cons s rest ih =>
    intro out
    have hs : (¬s = [] ∧ ¬s = ['.']) ∧ ¬s = ['.', '.'] := by
      have := h s (by simp); simpa [validSeg] using this
    simp only [cleanSegsAux]
    rw [if_neg (by simp [hs.1.1, hs.1.2] :
        ¬((decide (s = []) || decide (s = ['.'])) = true)), if_neg hs.2,
      ih (fun x hx => h x (List.mem_cons_of_mem _ hx)) (s :: out)]
    simp

theorem modLast_concat (f : List Char → List Char) (is : List (List Char)) (lastS : List Char) :
    modLast f (is ++ [lastS]) = is ++ [f lastS] := by
  induction is with
  | nil => simp [modLast]
  | cons a is2 ih =>
    rw [List.cons_append, modLast_cons_of_ne_nil _ _ _ (by simp), ih, List.cons_append]

theorem goClean_thumb (body : List Char)
    (hv : ∀ s ∈ splitSlash body, validSeg s = true) :
    goCleanChars ('t' :: 'h' :: 'u' :: 'm' :: 'b' :: '/' :: body) =
      't' :: 'h' :: 'u' :: 'm' :: 'b' :: '/' :: body := by
  have hne := splitSlash_ne_nil body
  have hsplit : splitSlash ('t' :: 'h' :: 'u' :: 'm' :: 'b' :: '/' :: body) =
      ['t', 'h', 'u', 'm', 'b'] :: splitSlash body := by
    simp [splitSlash]
  have hvalid : ∀ s ∈ ['t', 'h', 'u', 'm', 'b'] :: splitSlash body, validSeg s = true := by
    intro s hs
    rcases List.mem_cons.mp hs with h1 | h2
    · subst h1; decide
    · exact hv s h2
  have hjoin : joinSegs (['t', 'h', 'u', 'm', 'b'] :: splitSlash body) =
      't' :: 'h' :: 'u' :: 'm' :: 'b' :: '/' :: body := by
    cases hsb : splitSlash body with
    | nil => exact absurd hsb hne
    | cons s ss =>
      have h4 : joinSegs (['t', 'h', 'u', 'm', 'b'] :: s :: ss) =
          ['t', 'h', 'u', 'm', 'b'] ++ '/' :: joinSegs (s :: ss) := by
        simp [joinSegs]
      rw [h4, ← hsb, joinSegs_splitSlash]
      rfl
  simp only [goCleanChars]
  have hroot : (match 't' :: 'h' :: 'u' :: 'm' :: 'b' :: '/' :: body with
      | '/' :: _ => true | _ => false) = false := rfl
  rw [hsplit, hroot, cleanSegsAux_all_valid false _ hvalid []]
  simp only [List.append_nil, List.reverse_reverse]
  rw [hjoin]
  simp

theorem trim_slash_thumb (name : String) :
    trimPrefixStr ("/thumb/" ++ name) "/thumb/" = name := by
  unfold trimPrefixStr
  have hp : "/thumb/".data.isPrefixOf ("/thumb/" ++ name).data = true := by
    rw [String.data_append]
    exact List.isPrefixOf_iff_prefix.mpr (List.prefix_append _ _)
  rw [if_pos hp]
  apply String.ext
  show (("/thumb/" ++ name).data).drop ("/thumb/".data).length = name.data
  rw [String.data_append, List.drop_left]

theorem getThumbPath_eq_concat (n : String) (hval : validObjectName n = true) :
    getThumbPath n = "thumb/" ++ stripExt n ++ ".jpg" := by
  have hb : (stripExt n ++ ".jpg").data = (stripExt n).data ++ ['.', 'j', 'p', 'g'] := by
    rw [String.data_append]
  have hjpg : ('/' : Char) ∉ ['.', 'j', 'p', 'g'] := by decide
  have hsplitn : splitSlash n.data =
      modLast (fun s => s ++ (pathExt n).data) (splitSlash (stripExt n).data) := by
    conv_lhs => rw [← strip_append_ext n]
    exact splitSlash_append_noslash _ (ext_no_slash n) _
  have hsplitb : splitSlash ((stripExt n).data ++ ['.', 'j', 'p', 'g']) =
      modLast (fun s => s ++ ['.', 'j', 'p', 'g']) (splitSlash (stripExt n).data) :=
    splitSlash_append_noslash _ hjpg _
  rcases List.eq_nil_or_concat (splitSlash (stripExt n).data) with hnil | ⟨is, lastS, hconcat⟩
  · exact absurd hnil (splitSlash_ne_nil _)
  · rw [List.concat_eq_append] at hconcat
    have hvn : ∀ s ∈ is ++ [lastS ++ (pathExt n).data], validSeg s = true := by
      intro s hs
      have : (splitSlash n.data).all validSeg = true := hval
      rw [hsplitn, hconcat, modLast_concat] at this
      exact List.all_eq_true.mp this s hs
    have hv : ∀ s ∈ splitSlash ((stripExt n).data ++ ['.', 'j', 'p', 'g']), validSeg s = true := by
      intro s hs
      rw [hsplitb, hconcat, modLast_concat] at hs
      rcases List.mem_append.mp hs with h1 | h2
      · exact hvn s (List.mem_append.mpr (Or.inl h1))
      · rw [List.mem_singleton.mp h2]
        exact validSeg_append_jpg lastS
    apply String.ext
    unfold getThumbPath pathJoin2
    rw [if_neg (by decide : ¬("thumb" : String).data = []),
      if_neg (by rw [hb]; simp : ¬(stripExt n ++ ".jpg").data = [])]
    show goCleanChars (("thumb" : String).data ++ '/' :: (stripExt n ++ ".jpg").data) = _
    rw [hb]
    have hlit : ("thumb" : String).data ++ '/' :: ((stripExt n).data ++ ['.', 'j', 'p', 'g']) =
        't' :: 'h' :: 'u' :: 'm' :: 'b' :: '/' :: ((stripExt n).data ++ ['.', 'j', 'p', 'g']) := rfl
    rw [hlit, goClean_thumb _ hv]
    show _ = ("thumb/" ++ stripExt n ++ ".jpg").data
    rw [String.data_append, String.data_append]
    rfl

/-! ### Lemmas: classification and listing -/

theorem media_eq_image_or_video (name : String) :
    isMediaName name = (isImageName name || isVideoName name) := by
  show ((([".jpg", ".jpeg", ".png", ".gif", ".webp"] : List String) ++
      [".mp4", ".mov", ".mkv", ".webm"]).any fun s =>
        strEndsWith (lowerStr name) (lowerStr s)) = _
  rw [List.any_append]
  rfl

theorem mem_indexFiles_fields (env : Env) (listing : List (String × Option Attrs))
    (e : IndexEntry) (he : e ∈ indexFiles env listing) :
    strStartsWith e.name "thumb/" = false ∧ e.thumbURL = thumbURLFor e.name := by
  induction listing with
  | nil => simp [indexFiles] at he
  | cons x rest ih =>
    simp only [indexFiles, List.filterMap_cons] at he ih
    by_cases hx : strStartsWith x.1 "thumb/" = true
    · rw [if_pos hx] at he
      exact ih he
    · have hx2 : strStartsWith x.1 "thumb/" = false := by
        cases h : strStartsWith x.1 "thumb/"
        · rfl
        · exact absurd h hx
      rw [if_neg hx] at he
      cases ha : x.2 with
      | none => rw [ha] at he; exact ih he
      | some a =>
        rw [ha] at he
        rcases List.mem_cons.mp he with he1 | he2
        · subst he1; exact ⟨hx2, rfl⟩
        · exact ih he2

/-! ### Claim theorems -/

/-- C10: in `generateVideoThumbnail`, when ffmpeg succeeds but the
extracted frame's bytes fail to decode as an image, the raw frame bytes are
returned un-resized with no error. -/
theorem frame_decode_failure_returns_raw_frame (env : Env) (v frame : Bytes)
    (hff : env.ffmpeg v = some frame) (hdec : env.decode frame = none) :
    generateVideoThumbnail env v = .ok frame := by
  simp [generateVideoThumbnail, hff, hdec]

/-- Witness for C10 on a concrete transcoder and codec. -/
theorem frame_decode_failure_returns_raw_frame_witness :
    envFrameNoDecode.ffmpeg [1] = some [9, 9] ∧
    envFrameNoDecode.decode [9, 9] = none ∧
    generateVideoThumbnail envFrameNoDecode [1] = .ok [9, 9] :=
  ⟨rfl, rfl, frame_decode_failure_returns_raw_frame envFrameNoDecode [1] [9, 9] rfl rfl⟩

/-- C7: a miss on a video-classified object whose transcoder invocation
fails makes `thumbHandler` redirect to the static placeholder icon, leaving
the store unchanged, instead of answering with a server error. -/
theorem video_transcode_failure_redirects (env : Env) (store : Store) (name : String)
    (orig : Bytes) (hne : name ≠ "")
    (hmiss : store (getThumbPath name) = none)
    (horig : store name = some orig)
    (hvid : isVideoName name = true)
    (hff : env.ffmpeg orig = none) :
    (thumbHandler env store ("/thumb/" ++ name)).response =
      .redirect "/static/file-icon.png" 302 ∧
    (thumbHandler env store ("/thumb/" ++ name)).store = store := by
  have hgen : generateVideoThumbnail env orig = .error () := by
    simp [generateVideoThumbnail, hff]
  simp [thumbHandler, trim_slash_thumb, hne, hmiss, horig, hvid, hgen]

/-- Witness for C7: the spec's `clips/y.mp4` scenario with a failing
transcoder. -/
theorem video_transcode_failure_redirects_witness :
    storeOneMp4 (getThumbPath "clips/y.mp4") = none ∧
    (thumbHandler envDecodeFail storeOneMp4 ("/thumb/" ++ "clips/y.mp4")).response =
      .redirect "/static/file-icon.png" 302 :=
  ⟨by decide,
    (video_transcode_failure_redirects envDecodeFail storeOneMp4 "clips/y.mp4" [1, 2]
      (by decide) (by decide) (by decide) (by decide) rfl).1⟩

/-- C2 counterexample: on an image object whose bytes do not decode,
`thumbHandler` answers `500 "decode failed"`; it does not fall back to the
original bytes `[7, 7]` served as JPEG, contrary to the claim. -/
theorem image_decode_failure_no_fallback :
    (thumbHandler envDecodeFail storeOnePng "/thumb/photos/x.png").response =
      .serverError "decode failed" ∧
    (thumbHandler envDecodeFail storeOnePng "/thumb/photos/x.png").response ≠
      .bytesResponse "image/jpeg" cacheControlHeader [7, 7] := by
  decide

/-- C2 (amended): on a miss for a non-video object whose decode fails, the
resolver fails the request with `500 "decode failed"` (after one decode
call), leaving the store unchanged; no original-bytes fallback happens in
the image branch. -/
theorem image_decode_failure_returns_error (env : Env) (store : Store) (name : String)
    (orig : Bytes) (hne : name ≠ "")
    (hmiss : store (getThumbPath name) = none)
    (horig : store name = some orig)
    (hvid : isVideoName name = false)
    (hdec : env.decode orig = none) :
    (thumbHandler env store ("/thumb/" ++ name)).response = .serverError "decode failed" ∧
    (thumbHandler env store ("/thumb/" ++ name)).store = store ∧
    (thumbHandler env store ("/thumb/" ++ name)).decodeCalls = 1 := by
  simp [thumbHandler, trim_slash_thumb, hne, hmiss, horig, hvid, hdec]

/-- Witness for the amended C2 at the concrete failing codec. -/
theorem image_decode_failure_returns_error_witness :
    envDecodeFail.decode [7, 7] = none ∧
    (thumbHandler envDecodeFail storeOnePng ("/thumb/" ++ "photos/x.png")).response =
      .serverError "decode failed" :=
  ⟨rfl,
    (image_decode_failure_returns_error envDecodeFail storeOnePng "photos/x.png" [7, 7]
      (by decide) (by decide) (by decide) (by decide) rfl).1⟩

/-- C8: when generation succeeds (image branch or video branch) but the
cache write to the store fails, the response still serves the freshly
generated bytes as JPEG and the store is left unchanged. -/
theorem cache_write_failure_still_serves (env : Env) (store : Store) (name : String)
    (orig : Bytes) (hne : name ≠ "")
    (hmiss : store (getThumbPath name) = none)
    (horig : store name = some orig) :
    (isVideoName name = false → ∀ img, env.decode orig = some img →
      env.putOk (getThumbPath name) (env.encodeJPEG (env.resize img)).1 = false →
      (thumbHandler env store ("/thumb/" ++ name)).response =
        .bytesResponse "image/jpeg" cacheControlHeader (env.encodeJPEG (env.resize img)).1 ∧
      (thumbHandler env store ("/thumb/" ++ name)).store = store) ∧
    (isVideoName name = true → ∀ tb, generateVideoThumbnail env orig = .ok tb →
      env.putOk (getThumbPath name) tb = false →
      (thumbHandler env store ("/thumb/" ++ name)).response =
        .bytesResponse "image/jpeg" cacheControlHeader tb ∧
      (thumbHandler env store ("/thumb/" ++ name)).store = store) := by
  constructor
  · intro hvid img hdec hput
    simp [thumbHandler, trim_slash_thumb, hne, hmiss, horig, hvid, hdec, putThumb, hput]
  · intro hvid tb hgen hput
    simp [thumbHandler, trim_slash_thumb, hne, hmiss, horig, hvid, hgen, putThumb, hput]

/-- Witness for C8: generation succeeds, the write fails, the bytes are
served anyway. -/
theorem cache_write_failure_still_serves_witness :
    envGNoPut.putOk (getThumbPath "photos/x.png") [5] = false ∧
    (thumbHandler envGNoPut storeOnePng ("/thumb/" ++ "photos/x.png")).response =
      .bytesResponse "image/jpeg" cacheControlHeader [5] :=
  ⟨rfl,
    ((cache_write_failure_still_serves envGNoPut storeOnePng "photos/x.png" [7, 7]
      (by decide) (by decide) (by decide)).1 (by decide) 5 rfl rfl).1⟩

/-- C3: a name classified neither image nor video gets the static
placeholder icon as its thumbnail URL from the index listing (the caller
routes such requests to `/static/file-icon.png` instead of the resolver). -/
theorem other_classification_routes_placeholder (name : String)
    (hi : isImageName name = false) (hv : isVideoName name = false) :
    thumbURLFor name = "/static/file-icon.png" ∧
    ∀ env listing, ∀ e ∈ indexFiles env listing, e.name = name →
      e.thumbURL = "/static/file-icon.png" := by
  have hm : isMediaName name = false := by
    rw [media_eq_image_or_video name, hi, hv]
    rfl
  constructor
  · simp [thumbURLFor, hm]
  · intro env listing e he hname
    have hfields := (mem_indexFiles_fields env listing e he).2
    rw [hfields, hname]
    simp [thumbURLFor, hm]

/-- Witness for C3 at the non-media name `doc.pdf`. -/
theorem other_classification_routes_placeholder_witness :
    isImageName "doc.pdf" = false ∧ isVideoName "doc.pdf" = false ∧
    thumbURLFor "doc.pdf" = "/static/file-icon.png" :=
  ⟨by decide, by decide,
    (other_classification_routes_placeholder "doc.pdf" (by decide) (by decide)).1⟩

/-- C4: a resolver call whose cache entry exists streams the stored bytes
unchanged with no generation work (zero decode and ffmpeg calls, store
untouched); consequently, after a first miss that generates successfully
and whose cache write succeeds, a second call for the same name serves the
same bytes without re-invoking the codec or the transcoder. -/
theorem cache_hit_skips_generation (env : Env) (store : Store) (name : String)
    (orig : Bytes) (img : Image) (hne : name ≠ "")
    (hmiss : store (getThumbPath name) = none)
    (hvid : isVideoName name = false)
    (horig : store name = some orig)
    (hdec : env.decode orig = some img)
    (hput : env.putOk (getThumbPath name) (env.encodeJPEG (env.resize img)).1 = true) :
    (∀ (st : Store) (b : Bytes), st (getThumbPath name) = some b →
      (thumbHandler env st ("/thumb/" ++ name)).response =
        .bytesResponse "image/jpeg" cacheControlHeader b ∧
      (thumbHandler env st ("/thumb/" ++ name)).store = st ∧
      (thumbHandler env st ("/thumb/" ++ name)).decodeCalls = 0 ∧
      (thumbHandler env st ("/thumb/" ++ name)).ffmpegCalls = 0) ∧
    ((thumbHandler env store ("/thumb/" ++ name)).response =
        .bytesResponse "image/jpeg" cacheControlHeader (env.encodeJPEG (env.resize img)).1 ∧
      (thumbHandler env store ("/thumb/" ++ name)).decodeCalls = 1 ∧
      (thumbHandler env (thumbHandler env store ("/thumb/" ++ name)).store
          ("/thumb/" ++ name)).response =
        .bytesResponse "image/jpeg" cacheControlHeader (env.encodeJPEG (env.resize img)).1 ∧
      (thumbHandler env (thumbHandler env store ("/thumb/" ++ name)).store
          ("/thumb/" ++ name)).decodeCalls = 0 ∧
      (thumbHandler env (thumbHandler env store ("/thumb/" ++ name)).store
          ("/thumb/" ++ name)).ffmpegCalls = 0) := by
  have hit : ∀ (st : Store) (b : Bytes), st (getThumbPath name) = some b →
      (thumbHandler env st ("/thumb/" ++ name)).response =
        .bytesResponse "image/jpeg" cacheControlHeader b ∧
      (thumbHandler env st ("/thumb/" ++ name)).store = st ∧
      (thumbHandler env st ("/thumb/" ++ name)).decodeCalls = 0 ∧
      (thumbHandler env st ("/thumb/" ++ name)).ffmpegCalls = 0 := by
    intro st b hb
    simp [thumbHandler, trim_slash_thumb, hne, hb]
  refine ⟨hit, ?_, ?_, ?_⟩
  · simp [thumbHandler, trim_slash_thumb, hne, hmiss, horig, hvid, hdec]
  · simp [thumbHandler, trim_slash_thumb, hne, hmiss, horig, hvid, hdec]
  · have hstore1 : (thumbHandler env store ("/thumb/" ++ name)).store
        (getThumbPath name) = some (env.encodeJPEG (env.resize img)).1 := by
      simp [thumbHandler, trim_slash_thumb, hne, hmiss, horig, hvid, hdec, putThumb, hput]
    have h2 := hit _ _ hstore1
    exact ⟨h2.1, h2.2.2.1, h2.2.2.2⟩

/-- Witness for C4: after the first call for `photos/x.png`, the second
call serves bytes with zero decode calls. -/
theorem cache_hit_skips_generation_witness :
    storeOnePng (getThumbPath "photos/x.png") = none ∧
    (thumbHandler envG (thumbHandler envG storeOnePng ("/thumb/" ++ "photos/x.png")).store
        ("/thumb/" ++ "photos/x.png")).decodeCalls = 0 :=
  ⟨by decide,
    ((cache_hit_skips_generation envG storeOnePng "photos/x.png" [7, 7] 5
      (by decide) (by decide) (by decide) (by decide) rfl rfl).2).2.2.2.1⟩

/-- C5: the index listing drops exactly the objects whose name starts with
`thumb/` and those whose attribute fetch failed, keeping every other name
in order; on the spec's example bucket it lists exactly
`["a.jpg", "b.mp4"]`. -/
theorem listing_excludes_thumb_names (env : Env)
    (listing : List (String × Option Attrs)) :
    (indexFiles env listing).map IndexEntry.name =
      (listing.filter fun x => !strStartsWith x.1 "thumb/" && x.2.isSome).map Prod.fst ∧
    (indexFiles env [("a.jpg", some ⟨4, 0⟩), ("thumb/a.jpg", some ⟨4, 0⟩),
        ("b.mp4", some ⟨4, 0⟩)]).map IndexEntry.name = ["a.jpg", "b.mp4"] := by
  constructor
  · induction listing with
    | nil => rfl
    | cons x rest ih =>
      by_cases hx : strStartsWith x.1 "thumb/" = true
      · simpa [indexFiles, List.filterMap_cons, List.filter_cons, hx] using ih
      · have hx2 : strStartsWith x.1 "thumb/" = false := by
          cases h : strStartsWith x.1 "thumb/"
          · rfl
          · exact absurd h hx
        cases ha : x.2 with
        | none => simpa [indexFiles, List.filterMap_cons, List.filter_cons, hx2, ha] using ih
        | some a => simpa [indexFiles, List.filterMap_cons, List.filter_cons, hx2, ha] using ih
  · rfl

/-- C6: an upload whose primary write succeeds is reported successful under
the joined object path; when thumbnail generation and its write succeed,
both the primary object and the thumbnail key end up in the store, and when
generation fails the upload is still reported successful with the primary
object stored. -/
theorem upload_populates_primary_and_thumb (env : Env) (store : Store)
    (req : UploadRequest)
    (hput : env.putOk (effectiveObjectPath req) req.fileBytes = true)
    (hne : getThumbPath (effectiveObjectPath req) ≠ effectiveObjectPath req) :
    (∀ tb, uploadGenBytes env (effectiveObjectPath req) req.fileBytes = some tb →
      env.putOk (getThumbPath (effectiveObjectPath req)) tb = true →
      (uploadHandler env store req).response = .success (effectiveObjectPath req) ∧
      (uploadHandler env store req).store (effectiveObjectPath req) = some req.fileBytes ∧
      (uploadHandler env store req).store (getThumbPath (effectiveObjectPath req)) = some tb) ∧
    (uploadGenBytes env (effectiveObjectPath req) req.fileBytes = none →
      (uploadHandler env store req).response = .success (effectiveObjectPath req) ∧
      (uploadHandler env store req).store (effectiveObjectPath req) = some req.fileBytes) := by
  constructor
  · intro tb hgen hputtb
    refine ⟨?_, ?_, ?_⟩
    · simp [uploadHandler, hput, hgen]
    · simp [uploadHandler, hput, hgen, putThumb, hputtb]
      intro h
      exact absurd h.symm hne
    · simp [uploadHandler, hput, hgen, putThumb, hputtb]
  · intro hgen
    constructor
    · simp [uploadHandler, hput, hgen]
    · simp [uploadHandler, hput, hgen]

/-- Witness for C6: the spec's upload of `q.jpg` into `reports` creates
both `reports/q.jpg` and `thumb/reports/q.jpg`. -/
theorem upload_populates_primary_and_thumb_witness :
    effectiveObjectPath reqQJpg = "reports/q.jpg" ∧
    getThumbPath (effectiveObjectPath reqQJpg) = "thumb/reports/q.jpg" ∧
    (uploadHandler envG storeEmpty reqQJpg).store (effectiveObjectPath reqQJpg) =
      some [1, 2, 3] ∧
    (uploadHandler envG storeEmpty reqQJpg).store
      (getThumbPath (effectiveObjectPath reqQJpg)) = some [5] :=
  ⟨by decide, by decide,
    ((upload_populates_primary_and_thumb envG storeEmpty reqQJpg rfl (by decide)).1
      [5] rfl rfl).2.1,
    ((upload_populates_primary_and_thumb envG storeEmpty reqQJpg rfl (by decide)).1
      [5] rfl rfl).2.2⟩

/-- C9 counterexample: the request `/thumb/thumb/a.jpg` reaches the
thumbnail handler (the mux pattern `/thumb/` is a prefix match) and hands
the mapping the name `thumb/a.jpg`, which is already under `thumb/`. -/
theorem mapped_name_thumb_counterexample :
    thumbHandlerMappedName "/thumb/thumb/a.jpg" = some "thumb/a.jpg" ∧
    strStartsWith "thumb/a.jpg" "thumb/" = true := by
  decide

/-- C9 (amended): for requests `/thumb/<name>` where `<name>` does not
itself start with `thumb/` — which covers every thumbnail URL the index
page emits, since listings exclude `thumb/`-prefixed names — the name
passed to the mapping never starts with `thumb/`; crafted requests such as
`/thumb/thumb/a.jpg` are the only exception. -/
theorem mapped_name_not_thumb_for_clean_requests (name : String) (hne : name ≠ "")
    (hpre : strStartsWith name "thumb/" = false) :
    (∀ m, thumbHandlerMappedName ("/thumb/" ++ name) = some m →
      strStartsWith m "thumb/" = false) ∧
    ∀ env listing, ∀ e ∈ indexFiles env listing, strStartsWith e.name "thumb/" = false := by
  constructor
  · intro m hm
    rw [thumbHandlerMappedName, trim_slash_thumb, if_neg hne] at hm
    cases Option.some.injEq _ _ ▸ hm
    exact hpre
  · intro env listing e he
    exact (mem_indexFiles_fields env listing e he).1

/-- Witness for the amended C9 at the clean request for `a.jpg`. -/
theorem mapped_name_not_thumb_for_clean_requests_witness :
    strStartsWith "a.jpg" "thumb/" = false ∧
    (∀ m, thumbHandlerMappedName ("/thumb/" ++ "a.jpg") = some m →
      strStartsWith m "thumb/" = false) :=
  ⟨by decide,
    (mapped_name_not_thumb_for_clean_requests "a.jpg" (by decide) (by decide)).1⟩

/-- C1: on well-formed object names (nonempty slash-separated segments,
none of them `"."` or `".."`) carrying an extension, `getThumbPath` is
exactly the pure mapping `"thumb/" ++ stripExt n ++ ".jpg"` with
forward-slash separators. -/
theorem thumbnail_key_pure_concat (n : String) (hval : validObjectName n = true)
    (hext : pathExt n ≠ "") :
    getThumbPath n = "thumb/" ++ stripExt n ++ ".jpg" :=
  getThumbPath_eq_concat n hval

/-- Witness for C1 at `folder/video.mp4`. -/
theorem thumbnail_key_pure_concat_witness :
    validObjectName "folder/video.mp4" = true ∧ pathExt "folder/video.mp4" ≠ "" ∧
    getThumbPath "folder/video.mp4" = "thumb/" ++ stripExt "folder/video.mp4" ++ ".jpg" :=
  ⟨by decide, by decide,
    thumbnail_key_pure_concat "folder/video.mp4" (by decide) (by decide)⟩

end Memories
